import Mathlib

/-!
# Verification of the X3 production-report extraction core (src/pp.py)

A shallow embedding of the data-extraction core of the repository:
the numeric cell coercion (`extract_numeric`), the layout detector
(`find_column_indices`), the row-scanning state machine
(`extract_employee_data`), and the per-file aggregation loop.

Grids are `List (List Cell)`; a `Cell` is absent (NaN), numeric, or text,
mirroring the heterogeneous values `pandas.read_excel(header=None)`
produces.  Numbers are modelled as `Rat`.  The three regular expressions
of the source (`Matricule\s*:\s*(\d+\s*\d+)\s*-\s*(.+)`, `(\d{4}/\d{2})`,
`TOTAL MATRICULE\s*:\s*(\d+\s*\d+)`) are embedded as executable search
functions with Python `re.search` semantics (leftmost match, greedy with
backtracking), specialised to these fixed patterns.
-/

/-- Python regex `\s` / `str.strip` whitespace, ASCII fragment
(space, tab, newline, carriage return, vertical tab, form feed). -/
def pyIsSpace (c : Char) : Bool :=
  c == ' ' || c == '\t' || c == '\n' || c == '\r' || c.toNat == 11 || c.toNat == 12

/-- Python `str.strip()`: drop leading and trailing whitespace. -/
def pyStrip (s : String) : String :=
  ⟨((s.data.dropWhile pyIsSpace).reverse.dropWhile pyIsSpace).reverse⟩

/-- Substring test: does `pat` occur contiguously inside `l`?
Models Python `pat in s`. -/
def containsLit (pat : List Char) : List Char → Bool
  | [] => pat.isEmpty
  | c :: cs => pat.isPrefixOf (c :: cs) || containsLit pat cs

/-- The value of a digit string read in base 10. -/
def digitsToNat (l : List Char) : Nat :=
  l.foldl (fun n c => n * 10 + (c.toNat - 48)) 0

/-- Models Python `float(s)` on a string: surrounding whitespace stripped,
optional sign, decimal digits with optional point, optional exponent.
(The `inf`/`nan` spellings and digit-group underscores of CPython are not
modelled; no claim depends on them.)  Returns `none` where `float` raises. -/
def parsePyFloat (s : String) : Option Rat :=
  let cs := ((s.data.dropWhile pyIsSpace).reverse.dropWhile pyIsSpace).reverse
  let sgncs : Int × List Char :=
    match cs with
    | '+' :: r => (1, r)
    | '-' :: r => (-1, r)
    | r => (1, r)
  let ip := sgncs.2.takeWhile Char.isDigit
  let cs2 := sgncs.2.dropWhile Char.isDigit
  let fpcs : List Char × List Char :=
    match cs2 with
    | '.' :: r => (r.takeWhile Char.isDigit, r.dropWhile Char.isDigit)
    | r => ([], r)
  if ip.isEmpty && fpcs.1.isEmpty then none
  else
    let mant : Rat :=
      ((sgncs.1 * (digitsToNat (ip ++ fpcs.1) : Int) : Int) : Rat) / (10 : Rat) ^ fpcs.1.length
    match fpcs.2 with
    | [] => some mant
    | e :: r =>
      if e == 'e' || e == 'E' then
        let esr : Bool × List Char :=
          match r with
          | '+' :: rr => (true, rr)
          | '-' :: rr => (false, rr)
          | rr => (true, rr)
        let ed := esr.2.takeWhile Char.isDigit
        let r2 := esr.2.dropWhile Char.isDigit
        if ed.isEmpty || !r2.isEmpty then none
        else if esr.1 then some (mant * (10 : Rat) ^ digitsToNat ed)
        else some (mant / (10 : Rat) ^ digitsToNat ed)
      else none

/-- Fractional decimal digits of `r / d`, fuel-bounded. -/
def fracDigits : Nat → Nat → Nat → String
  | _, _, 0 => ""
  | r, d, Nat.succ fuel =>
    if r = 0 then "" else toString (r * 10 / d) ++ fracDigits (r * 10 % d) d fuel

/-- Models Python `str` of a float value (decimal rendering; exact for the
terminating decimals that occur in spreadsheet cells). -/
def numToStr (q : Rat) : String :=
  let sgn := if q.num < 0 then "-" else ""
  let n := q.num.natAbs
  if q.den = 1 then sgn ++ toString n ++ ".0"
  else sgn ++ toString (n / q.den) ++ "." ++ fracDigits (n % q.den) q.den 64

/-- A grid cell as loaded by `pd.read_excel(..., header=None)`:
missing/NaN, a numeric value, or text. -/
inductive Cell where
  | absent : Cell
  | num : Rat → Cell
  | text : String → Cell
deriving DecidableEq, Repr

/-- `str(cell)` for a non-absent cell; `none` for an absent cell
(which `row.dropna()` removes before joining). -/
def cellText : Cell → Option String
  | Cell.absent => none
  | Cell.num q => some (numToStr q)
  | Cell.text s => some s

/-- Python `' '.join` of a list of strings. -/
def joinSpace : List String → String
  | [] => ""
  | [s] => s
  | s :: rest => s ++ " " ++ joinSpace rest

/-- The "row text" of a grid row:
`' '.join(map(str, row.dropna().values))` (pp.py lines 28 and 63). -/
def rowText (row : List Cell) : String :=
  joinSpace (row.filterMap cellText)

/-- The coercion applied to one cell inside `extract_numeric`:
the `pd.isna` test followed by `float(value)` under `try`/`except`
(pp.py lines 17-22).  Total; `none` wherever the source yields `None`. -/
def coerceCell : Cell → Option Rat
  | Cell.absent => none
  | Cell.num q => some q
  | Cell.text s => parsePyFloat s

/-- `extract_numeric(row, col_idx)` (pp.py lines 12-22): `None` when the
index is `None` or out of range, else the guarded coercion of the cell. -/
def extract_numeric (row : List Cell) (colIdx : Option Nat) : Option Rat :=
  match colIdx with
  | none => none
  | some i =>
    if h : i < row.length then coerceCell (row.get ⟨i, h⟩) else none

/-! ## The three regular expressions of the scanner

Embedded with `re.search` semantics: positions are tried left to right and
the first position admitting a match wins; within a position, quantifiers
are greedy with backtracking.  Each matcher below is the specialisation of
that strategy to its fixed pattern; the derivation of the deterministic
form from the backtracking search is noted case by case. -/

/-- The literal `Matricule` of the employee-header pattern. -/
def matriculeLit : List Char := "Matricule".data

/-- The literal `TOTAL MATRICULE` of the totals pattern. -/
def totalMatriculeLit : List Char := "TOTAL MATRICULE".data

/-- The literal `TOTAL` tested by `'TOTAL' not in row_str`. -/
def totalLit : List Char := "TOTAL".data

/-- `\s*(.+)` after the dash of the employee-header pattern: greedy
whitespace, then a nonempty capture of characters other than newline.
When everything after the whitespace run is exhausted or starts with a
newline, the engine backtracks into the run and `.+` captures its last
non-newline character, if any. -/
def nameCapture (tail : List Char) : Option String :=
  let sp := tail.takeWhile pyIsSpace
  let rest := tail.dropWhile pyIsSpace
  match rest with
  | c :: _ =>
    if c == '\n' then (sp.reverse.find? (fun x => x != '\n')).map String.singleton
    else some ⟨rest.takeWhile (fun x => x != '\n')⟩
  | [] => (sp.reverse.find? (fun x => x != '\n')).map String.singleton

/-- Match `\s*:\s*(\d+\s*\d+)\s*-\s*(.+)` against the text following an
occurrence of `Matricule`; returns the two captures.  The backtracking
search for `(\d+\s*\d+)\s*-` reduces to two cases: the capture is the
first digit run, an inner whitespace run and the full second digit run
(dash after it), or — failing that — the first digit run alone, split
into the two `\d+` (which needs at least two digits), with the dash
following it. -/
def matchAfterMatricule (cs : List Char) : Option (String × String) :=
  match cs.dropWhile pyIsSpace with
  | ':' :: t2 =>
    let t3 := t2.dropWhile pyIsSpace
    let d1 := t3.takeWhile Char.isDigit
    if d1.isEmpty then none
    else
      let afterD1 := t3.dropWhile Char.isDigit
      let sp := afterD1.takeWhile pyIsSpace
      let d2 := (afterD1.dropWhile pyIsSpace).takeWhile Char.isDigit
      let tryWide : Option (String × String) :=
        if d2.isEmpty then none
        else
          match ((afterD1.dropWhile pyIsSpace).dropWhile Char.isDigit).dropWhile pyIsSpace with
          | '-' :: rest => (nameCapture rest).map (fun nm => (⟨d1 ++ sp ++ d2⟩, nm))
          | _ => none
      match tryWide with
      | some r => some r
      | none =>
        if 2 ≤ d1.length then
          match afterD1.dropWhile pyIsSpace with
          | '-' :: rest => (nameCapture rest).map (fun nm => (⟨d1⟩, nm))
          | _ => none
        else none
  | _ => none

/-- `re.search(r'Matricule\s*:\s*(\d+\s*\d+)\s*-\s*(.+)', row_str)`
(pp.py line 65): the first occurrence of the literal whose continuation
matches yields the captures. -/
def matricule_search : List Char → Option (String × String)
  | [] => none
  | c :: cs =>
    if matriculeLit.isPrefixOf (c :: cs) then
      match matchAfterMatricule ((c :: cs).drop matriculeLit.length) with
      | some r => some r
      | none => matricule_search cs
    else matricule_search cs

/-- Match `\s*:\s*\d+\s*\d+` after an occurrence of `TOTAL MATRICULE`:
the group `(\d+\s*\d+)` matches iff the first digit run has length at
least two (split inside it), or a further digit follows it across
whitespace. -/
def matchAfterTotals (cs : List Char) : Bool :=
  match cs.dropWhile pyIsSpace with
  | ':' :: t2 =>
    let t3 := t2.dropWhile pyIsSpace
    let d1 := t3.takeWhile Char.isDigit
    if d1.isEmpty then false
    else if 2 ≤ d1.length then true
    else
      match (t3.dropWhile Char.isDigit).dropWhile pyIsSpace with
      | c :: _ => c.isDigit
      | [] => false
  | _ => false

/-- `re.search(r'TOTAL MATRICULE\s*:\s*(\d+\s*\d+)', row_str)` (pp.py
line 77), as the boolean the source consumes (the capture is unused). -/
def totals_search : List Char → Bool
  | [] => false
  | c :: cs =>
    (totalMatriculeLit.isPrefixOf (c :: cs)
        && matchAfterTotals ((c :: cs).drop totalMatriculeLit.length))
      || totals_search cs

/-- `re.search(r'(\d{4}/\d{2})', row_str)` (pp.py line 73): the leftmost
four digits, a slash and two digits; the capture is those seven
characters. -/
def period_search : List Char → Option String
  | a :: b :: c :: d :: s :: e :: f :: rest =>
    if a.isDigit && b.isDigit && c.isDigit && d.isDigit
        && s == '/' && e.isDigit && f.isDigit then
      some ⟨[a, b, c, d, s, e, f]⟩
    else period_search (b :: c :: d :: s :: e :: f :: rest)
  | _ => none

/-- Modelled from the spec: the period pattern required to be anchored at
the start of the row text ("matches a YYYY/MM pattern anchored at the
start of the row text"), for comparison with the source's unanchored
search. -/
def spec_anchored_period (cs : List Char) : Option String :=
  match cs with
  | a :: b :: c :: d :: s :: e :: f :: _ =>
    if a.isDigit && b.isDigit && c.isDigit && d.isDigit
        && s == '/' && e.isDigit && f.isDigit then
      some ⟨[a, b, c, d, s, e, f]⟩
    else none
  | _ => none

/-! ## Layout detector (`find_column_indices`, pp.py lines 25-50) -/

/-- The literal `Tps Saisie`. -/
def tpsSaisieLit : List Char := "Tps Saisie".data

/-- The literal `Tps Alloué`. -/
def tpsAlloueLit : List Char := "Tps Alloué".data

/-- The literal `Ecart`. -/
def ecartLit : List Char := "Ecart".data

/-- The literal `Alloué`. -/
def alloueLit : List Char := "Alloué".data

/-- The literal `Efficience`. -/
def efficienceLit : List Char := "Efficience".data

/-- The column map built by the detector: the four metric keys of the
source dictionary, each possibly absent (`column_map.get` then yields
`None`). -/
structure ColumnMap where
  tps_saisie : Option Nat
  tps_alloue : Option Nat
  ecart : Option Nat
  efficience_tech : Option Nat
deriving DecidableEq, Repr

/-- Does a label-header row qualify?  `'Tps Saisie' in row_str and
'Tps Alloué' in row_str` (pp.py line 29). -/
def labelRowQualifies (row : List Cell) : Bool :=
  containsLit tpsSaisieLit (rowText row).data
    && containsLit tpsAlloueLit (rowText row).data

/-- One cell's contribution to the per-row column map (pp.py lines
31-41): skip absent cells; on `str(cell).strip()` test `Ecart`, then
`Tps Saisie`, then `Alloué`, then `Efficience` (the latter recording
column index plus one); a later matching cell overwrites an earlier
one, as dictionary assignment does. -/
def detectCell (m : ColumnMap) (ic : Nat × Cell) : ColumnMap :=
  match cellText ic.2 with
  | none => m
  | some s =>
    let cs := (pyStrip s).data
    if containsLit ecartLit cs then { m with ecart := some ic.1 }
    else if containsLit tpsSaisieLit cs then { m with tps_saisie := some ic.1 }
    else if containsLit alloueLit cs then { m with tps_alloue := some ic.1 }
    else if containsLit efficienceLit cs then { m with efficience_tech := some (ic.1 + 1) }
    else m

/-- The column map read off one qualifying header row. -/
def detectRow (row : List Cell) : ColumnMap :=
  row.enum.foldl detectCell ⟨none, none, none, none⟩

/-- Is the dictionary nonempty (`if col_map:`)? -/
def cmapNonempty (m : ColumnMap) : Bool :=
  m.tps_saisie.isSome || m.tps_alloue.isSome || m.ecart.isSome || m.efficience_tech.isSome

/-- `find_column_indices(data)` (pp.py lines 25-50): the first row whose
row text contains both `Tps Saisie` and `Tps Alloué` and whose per-cell
scan yields a nonempty map determines the columns; otherwise the
hard-coded fallback `{13, 16, 18, 25}` is returned. -/
def find_column_indices : List (List Cell) → ColumnMap
  | [] => ⟨some 13, some 16, some 18, some 25⟩
  | r :: rs =>
    if labelRowQualifies r then
      let m := detectRow r
      if cmapNonempty m then m else find_column_indices rs
    else find_column_indices rs

/-- Modelled from the spec: the hard-coded COMPACT column map
`{TimeLogged:1, TimeAllocated:2, Variance:3, TechnicalEfficiency:4}`
which the spec designates as the final fallback.  Stated only for
comparison with the fallback the source actually returns. -/
def spec_compact_map : ColumnMap := ⟨some 1, some 2, some 3, some 4⟩

/-! ## Report parser (`extract_employee_data`, pp.py lines 53-90) -/

/-- The in-flight employee context captured from a header row
(`current_employee` when nonempty). -/
structure EmployeeCtx where
  matricule : String
  employee_name : String
deriving DecidableEq, Repr

/-- The scanner state: `current_employee` (`none` for the empty
dictionary) and `current_period`. -/
structure RState where
  employee : Option EmployeeCtx
  period : Option String
deriving DecidableEq, Repr

/-- One output record (one row of the returned dataframe), without the
`Source_File` column the upload loop adds later. -/
structure EmployeeRecord where
  matricule : String
  employee_name : String
  period : String
  tps_saisie : Option Rat
  tps_alloue : Option Rat
  ecart : Option Rat
  efficience_tech : Option Rat
deriving DecidableEq, Repr

/-- Processing of one grid row (the body of the loop at pp.py lines
62-88): the employee-header rule, then the period rule, then the totals
rule, each reading the row text; the totals rule emits a record and
clears `current_employee` (and only it). -/
def stepRow (cmap : ColumnMap) (s : RState) (row : List Cell) : RState × Option EmployeeRecord :=
  let rs := (rowText row).data
  let s1 : RState :=
    match matricule_search rs with
    | some r => { employee := some ⟨pyStrip r.1, pyStrip r.2⟩, period := none }
    | none => s
  let s2 : RState :=
    match period_search rs with
    | some p => if containsLit totalLit rs then s1 else { s1 with period := some p }
    | none => s1
  match s2.employee with
  | some e =>
    if totals_search rs then
      ({ employee := none, period := s2.period },
        some { matricule := e.matricule
               employee_name := e.employee_name
               period := s2.period.getD "N/A"
               tps_saisie := extract_numeric row cmap.tps_saisie
               tps_alloue := extract_numeric row cmap.tps_alloue
               ecart := extract_numeric row cmap.ecart
               efficience_tech := extract_numeric row cmap.efficience_tech })
    else (s2, none)
  | none => (s2, none)

/-- The scan over all rows, accumulating emitted records in order. -/
def runRows (cmap : ColumnMap) : RState → List (List Cell) → List EmployeeRecord
  | _, [] => []
  | s, r :: rs =>
    match stepRow cmap s r with
    | (s', some rec) => rec :: runRows cmap s' rs
    | (s', none) => runRows cmap s' rs

/-- The state reached after scanning a list of rows. -/
def runState (cmap : ColumnMap) (s : RState) (rows : List (List Cell)) : RState :=
  rows.foldl (fun st r => (stepRow cmap st r).1) s

/-- `extract_employee_data` (pp.py lines 53-90) from the loaded grid:
detect the column layout, then scan every row from the empty state. -/
def extract_employee_data (data : List (List Cell)) : List EmployeeRecord :=
  runRows (find_column_indices data) ⟨none, none⟩ data

/-! ## Aggregation across uploaded files (pp.py lines 143-159) -/

/-- The per-file tables of the upload loop (`all_data`): for each
uploaded file, its extracted records each tagged with the file name
(`df['Source_File'] = uploaded_file.name`). -/
def all_data (files : List (String × List (List Cell))) :
    List (List (EmployeeRecord × String)) :=
  files.map (fun f => (extract_employee_data f.2).map (fun r => (r, f.1)))

/-- `combined_df = pd.concat(all_data, ignore_index=True)` (pp.py line
159): the concatenation of the per-file tables in upload order. -/
def combined_df (files : List (String × List (List Cell))) :
    List (EmployeeRecord × String) :=
  (all_data files).flatten

/-- The processing of one uploaded file: extraction followed by source
tagging (pp.py lines 154-155). -/
def process_file (name : String) (data : List (List Cell)) :
    List (EmployeeRecord × String) :=
  (extract_employee_data data).map (fun r => (r, name))

/-! ## Helper lemmas on the scanner -/

/-- A row on which none of the three rules fires leaves the state intact
and emits nothing. -/
theorem stepRow_no_transitions (cmap : ColumnMap) (s : RState) (row : List Cell)
    (hm : matricule_search (rowText row).data = none)
    (hp : period_search (rowText row).data = none
      ∨ containsLit totalLit (rowText row).data = true)
    (ht : totals_search (rowText row).data = false) :
    stepRow cmap s row = (s, none) := by
  obtain ⟨emp, per⟩ := s
  unfold stepRow
  rcases hp with hp | hp <;>
    · simp only [hm, hp, ht]
      cases hper : period_search (rowText row).data <;>
        cases emp <;> simp [ht, hper, hp]

/-- A row firing neither the header nor the totals rule preserves the
employee component and emits nothing (its period component may change). -/
theorem stepRow_keeps_employee (cmap : ColumnMap) (s : RState) (row : List Cell)
    (hm : matricule_search (rowText row).data = none)
    (ht : totals_search (rowText row).data = false) :
    (stepRow cmap s row).1.employee = s.employee ∧ (stepRow cmap s row).2 = none := by
  obtain ⟨emp, per⟩ := s
  unfold stepRow
  simp only [hm]
  cases hper : period_search (rowText row).data <;>
    cases hct : containsLit totalLit (rowText row).data <;>
      cases emp <;> simp [ht, hper, hct]

/-- A row matching the totals pattern contains the literal `TOTAL`, so the
period rule never fires on it. -/
theorem totals_search_contains_total :
    ∀ cs, totals_search cs = true → containsLit totalLit cs = true := by
  intro cs
  induction cs with
  | nil => intro h; simp [totals_search] at h
  | cons c cs ih =>
    intro h
    rw [totals_search] at h
    rw [containsLit]
    simp only [Bool.or_eq_true, Bool.and_eq_true] at h ⊢
    rcases h with ⟨hpre, _⟩ | h
    · left
      have h1 : totalLit <+: totalMatriculeLit := by decide
      have h2 : totalMatriculeLit <+: (c :: cs) := List.isPrefixOf_iff_prefix.mp hpre
      exact List.isPrefixOf_iff_prefix.mpr (h1.trans h2)
    · right; exact ih h

/-- A header row that does not match the totals pattern installs the
stripped captures as the context, resets the period, and emits nothing. -/
theorem stepRow_header (cmap : ColumnMap) (s : RState) (row : List Cell)
    (i n : String)
    (hm : matricule_search (rowText row).data = some (i, n))
    (ht : totals_search (rowText row).data = false) :
    (stepRow cmap s row).1.employee = some ⟨pyStrip i, pyStrip n⟩
      ∧ (stepRow cmap s row).2 = none := by
  unfold stepRow
  simp only [hm]
  cases hper : period_search (rowText row).data <;>
    cases hct : containsLit totalLit (rowText row).data <;>
      simp [ht, hper, hct]

/-- A header row on which the period rule does not fire either yields
exactly the fresh context with a null period. -/
theorem stepRow_header_full (cmap : ColumnMap) (s : RState) (row : List Cell)
    (i n : String)
    (hm : matricule_search (rowText row).data = some (i, n))
    (hp : period_search (rowText row).data = none
      ∨ containsLit totalLit (rowText row).data = true)
    (ht : totals_search (rowText row).data = false) :
    stepRow cmap s row = ({ employee := some ⟨pyStrip i, pyStrip n⟩, period := none }, none) := by
  unfold stepRow
  rcases hp with hp | hp <;>
    · simp only [hm, hp, ht]
      cases hper : period_search (rowText row).data <;> simp [ht, hper, hp]

/-- A totals row reached with an active context and no header match emits
the record built from the context and the current period, clears the
context, and keeps the period. -/
theorem stepRow_totals (cmap : ColumnMap) (s : RState) (row : List Cell)
    (e : EmployeeCtx)
    (he : s.employee = some e)
    (hm : matricule_search (rowText row).data = none)
    (ht : totals_search (rowText row).data = true) :
    stepRow cmap s row =
      ({ employee := none, period := s.period },
        some { matricule := e.matricule
               employee_name := e.employee_name
               period := s.period.getD "N/A"
               tps_saisie := extract_numeric row cmap.tps_saisie
               tps_alloue := extract_numeric row cmap.tps_alloue
               ecart := extract_numeric row cmap.ecart
               efficience_tech := extract_numeric row cmap.efficience_tech }) := by
  have hct : containsLit totalLit (rowText row).data = true :=
    totals_search_contains_total _ ht
  obtain ⟨emp, per⟩ := s
  cases he
  unfold stepRow
  simp only [hm]
  cases hper : period_search (rowText row).data <;> simp [ht, hper, hct]

/-- Unfolding `runState` over a leading row. -/
theorem runState_cons (cmap : ColumnMap) (s : RState) (r : List Cell) (rs : List (List Cell)) :
    runState cmap s (r :: rs) = runState cmap (stepRow cmap s r).1 rs := rfl

/-- Scanning a concatenation: the records of the first part, then those of
the second part started from the reached state. -/
theorem runRows_append (cmap : ColumnMap) (s : RState) (xs ys : List (List Cell)) :
    runRows cmap s (xs ++ ys) = runRows cmap s xs ++ runRows cmap (runState cmap s xs) ys := by
  induction xs generalizing s with
  | nil => simp [runRows, runState]
  | cons r rs ih =>
    rw [List.cons_append, runRows, runRows, runState_cons]
    cases hs : stepRow cmap s r with
    | mk s' o => cases o <;> simp [ih]

/-- Rows on which no rule fires emit nothing and leave the state intact. -/
theorem runRows_no_transitions (cmap : ColumnMap) (s : RState) (rows : List (List Cell))
    (h : ∀ r ∈ rows, matricule_search (rowText r).data = none
      ∧ (period_search (rowText r).data = none
          ∨ containsLit totalLit (rowText r).data = true)
      ∧ totals_search (rowText r).data = false) :
    runRows cmap s rows = [] ∧ runState cmap s rows = s := by
  induction rows generalizing s with
  | nil => exact ⟨rfl, rfl⟩
  | cons r rs ih =>
    obtain ⟨hm, hp, ht⟩ := h r (List.mem_cons_self r rs)
    have hstep := stepRow_no_transitions cmap s r hm hp ht
    have ih' := ih (fun x hx => h x (List.mem_cons_of_mem r hx)) (s := s)
    rw [runRows, runState_cons, hstep]
    exact ⟨ih'.1, ih'.2⟩

/-- Rows firing neither the header nor the totals rule emit nothing and
preserve the employee component. -/
theorem runRows_keeps_employee (cmap : ColumnMap) (s : RState) (rows : List (List Cell))
    (h : ∀ r ∈ rows, matricule_search (rowText r).data = none
      ∧ totals_search (rowText r).data = false) :
    runRows cmap s rows = [] ∧ (runState cmap s rows).employee = s.employee := by
  induction rows generalizing s with
  | nil => exact ⟨rfl, rfl⟩
  | cons r rs ih =>
    obtain ⟨hm, ht⟩ := h r (List.mem_cons_self r rs)
    have hstep := stepRow_keeps_employee cmap s r hm ht
    have ih' := ih (fun x hx => h x (List.mem_cons_of_mem r hx)) (s := (stepRow cmap s r).1)
    rw [runRows, runState_cons]
    cases hsr : stepRow cmap s r with
    | mk s' o =>
      cases o with
      | none =>
        rw [hsr] at hstep ih'
        exact ⟨ih'.1, ih'.2.trans hstep.1⟩
      | some rec => rw [hsr] at hstep; exact absurd hstep.2 (by simp)

/-! ## Claims -/

/-- C1 (amended): for every Grid in which no row qualifies as a label
header row (row text containing both `Tps Saisie` and `Tps Alloué`), the
detector returns the hard-coded EXPANDED column map
`{TimeLogged:13, TimeAllocated:16, Variance:18, TechnicalEfficiency:25}`
as the fallback, and this fallback is not an error (the function is
total).  The source has no width-based detection step. -/
theorem c1_no_label_row_fallback (data : List (List Cell))
    (h : ∀ r ∈ data, labelRowQualifies r = false) :
    find_column_indices data = ⟨some 13, some 16, some 18, some 25⟩ := by
  induction data with
  | nil => rfl
  | cons r rs ih =>
    rw [find_column_indices]
    rw [h r (List.mem_cons_self r rs)]
    exact ih (fun x hx => h x (List.mem_cons_of_mem r hx))

/-- C1 (counterexample): on a grid with no qualifying label header row
(and no width marker row), the fallback the source returns is the
EXPANDED map, not the COMPACT map `{1, 2, 3, 4}` the claim states. -/
theorem c1_compact_fallback_cex :
    ([[Cell.text "hello"]].all (fun r => !labelRowQualifies r)) = true
      ∧ find_column_indices [[Cell.text "hello"]] = ⟨some 13, some 16, some 18, some 25⟩
      ∧ find_column_indices [[Cell.text "hello"]] ≠ spec_compact_map := by
  refine ⟨by decide, by decide, by decide⟩

/-- C1 (witness): the fallback theorem applied to a concrete grid. -/
theorem c1_no_label_row_fallback_witness :
    find_column_indices [[Cell.text "abc"], [Cell.text "TOTAL MATRICULE : 1 2"]]
      = ⟨some 13, some 16, some 18, some 25⟩ :=
  c1_no_label_row_fallback _ (by decide)

/-- C3 (amended): the period transition fires iff the `YYYY/MM` pattern
occurs ANYWHERE in the row text (the source search is unanchored) and the
row text does not contain `TOTAL`; it then stores the leftmost match.
Otherwise the period is what the header rule left (reset on a header
match, kept otherwise). -/
theorem c3_period_unanchored (cmap : ColumnMap) (s : RState) (row : List Cell) :
    (∀ p, period_search (rowText row).data = some p →
      containsLit totalLit (rowText row).data = false →
      (stepRow cmap s row).1.period = some p)
    ∧ ((period_search (rowText row).data = none
        ∨ containsLit totalLit (rowText row).data = true) →
      (stepRow cmap s row).1.period =
        if (matricule_search (rowText row).data).isSome then none else s.period) := by
  constructor
  · intro p hp hct
    unfold stepRow
    simp only [hp, hct]
    cases hm : matricule_search (rowText row).data <;>
      cases ht : totals_search (rowText row).data <;>
        cases hemp : s.employee <;> simp [hm, ht, hemp]
  · intro hp
    unfold stepRow
    rcases hp with hp | hp <;>
      [simp only [hp]; skip] <;>
      · cases hper : period_search (rowText row).data <;>
          cases hm : matricule_search (rowText row).data <;>
            cases ht : totals_search (rowText row).data <;>
              cases hemp : s.employee <;> simp_all

/-- C3 (counterexample): a row whose `YYYY/MM` occurrence is NOT at the
start of the row text (so the spec-side anchored pattern does not match)
still updates `CurrentPeriod`, because the source search is unanchored. -/
theorem c3_anchoring_cex :
    spec_anchored_period (rowText [Cell.text "Periode 2025/12"]).data = none
      ∧ (stepRow ⟨some 13, some 16, some 18, some 25⟩ ⟨none, none⟩
          [Cell.text "Periode 2025/12"]).1.period = some "2025/12" := by
  refine ⟨by decide, by decide⟩

/-- C3 (witness): the unanchored-period theorem applied to a concrete
mid-row occurrence. -/
theorem c3_period_unanchored_witness :
    (stepRow ⟨some 13, some 16, some 18, some 25⟩ ⟨none, none⟩
      [Cell.text "abc 2025/12"]).1.period = some "2025/12" :=
  (c3_period_unanchored ⟨some 13, some 16, some 18, some 25⟩ ⟨none, none⟩
    [Cell.text "abc 2025/12"]).1 "2025/12" (by decide) (by decide)

/-- C5 (amended): a row matching the totals pattern while no context is
active, and not itself matching the employee-header pattern, emits
nothing and leaves the state unchanged. -/
theorem c5_totals_no_context (cmap : ColumnMap) (s : RState) (row : List Cell)
    (he : s.employee = none)
    (ht : totals_search (rowText row).data = true)
    (hm : matricule_search (rowText row).data = none) :
    stepRow cmap s row = (s, none) := by
  have hct : containsLit totalLit (rowText row).data = true :=
    totals_search_contains_total _ ht
  obtain ⟨emp, per⟩ := s
  have hemp : emp = none := he
  subst hemp
  unfold stepRow
  cases hper : period_search (rowText row).data <;> simp [hm, hper, hct]

/-- C5 (counterexample): a single row that matches BOTH the employee
header pattern and the totals pattern, reached with no active context,
DOES emit a record (the header rule installs a context earlier in the
same row's processing), contradicting the claim read over all
totals-matching rows. -/
theorem c5_header_totals_cex :
    totals_search (rowText [Cell.text "Matricule : 1 2 - X TOTAL MATRICULE : 1 2"]).data = true
      ∧ (stepRow ⟨some 13, some 16, some 18, some 25⟩ ⟨none, none⟩
          [Cell.text "Matricule : 1 2 - X TOTAL MATRICULE : 1 2"]).2 ≠ none := by
  refine ⟨by decide, by decide⟩

/-- C5 (witness): the amended theorem at a concrete orphan totals row. -/
theorem c5_totals_no_context_witness :
    stepRow ⟨some 13, some 16, some 18, some 25⟩ ⟨none, none⟩
      [Cell.text "TOTAL MATRICULE : 7 001"] = (⟨none, none⟩, none) :=
  c5_totals_no_context ⟨some 13, some 16, some 18, some 25⟩ ⟨none, none⟩
    [Cell.text "TOTAL MATRICULE : 7 001"] rfl (by decide) (by decide)

/-- C9: the composition of grid loading and parsing is deterministic:
identical grids and identical source-file names yield identical tagged
record sequences (the embedding is a pure function of its input). -/
theorem c9_deterministic (d1 d2 : List (List Cell)) (n1 n2 : String)
    (hd : d1 = d2) (hn : n1 = n2) :
    process_file n1 d1 = process_file n2 d2 := by
  subst hd; subst hn; rfl

/-- C9 (witness): determinism at a concrete grid and file name. -/
theorem c9_deterministic_witness :
    process_file "report.xls" [[Cell.text "x"]] = process_file "report.xls" [[Cell.text "x"]] :=
  c9_deterministic [[Cell.text "x"]] [[Cell.text "x"]] "report.xls" "report.xls" rfl rfl

/-- C6: `extract_numeric` is total and yields `none` exactly when the
column index is absent, out of range for the row, or the cell does not
coerce to a number (absent/blank cell or unparseable text); on a cell
that does coerce it returns the coerced value.  Being a Lean function it
can raise nothing, so no metric extraction aborts the parse. -/
theorem c6_extract_numeric_total (row : List Cell) (ci : Option Nat) :
    (extract_numeric row ci = none ↔
      ci = none ∨ ∃ i, ci = some i ∧
        (row.length ≤ i ∨ ∃ c, row[i]? = some c ∧ coerceCell c = none))
    ∧ (∀ i q c, ci = some i → row[i]? = some c → coerceCell c = some q →
        extract_numeric row ci = some q) := by
  constructor
  · cases ci with
    | none => simp [extract_numeric]
    | some i =>
      by_cases h : i < row.length
      · rw [extract_numeric]
        simp only [h, dif_pos, Option.some.injEq]
        constructor
        · intro hc
          refine Or.inr ⟨i, rfl, Or.inr ⟨row.get ⟨i, h⟩, ?_, hc⟩⟩
          simp [List.getElem?_eq_getElem h]
        · rintro (hcon | ⟨j, hj, hlen | ⟨c, hc, hcc⟩⟩)
          · exact absurd hcon (by simp)
          · subst hj; omega
          · subst hj
            rw [List.getElem?_eq_getElem h] at hc
            injection hc with hc
            rw [← hc] at hcc
            simpa using hcc
      · rw [extract_numeric]
        simp only [h, dif_neg, not_false_iff]
        constructor
        · intro _
          exact Or.inr ⟨i, rfl, Or.inl (by omega)⟩
        · intro _; trivial
  · intro i q c hci hg hc
    subst hci
    have h : i < row.length := by
      by_contra hlt
      rw [List.getElem?_eq_none (by omega)] at hg
      exact absurd hg (by simp)
    rw [extract_numeric]
    simp only [h, dif_pos]
    rw [List.getElem?_eq_getElem h] at hg
    injection hg with hg
    rw [show row.get ⟨i, h⟩ = row[i] from rfl, hg, hc]

/-- C6 (witness): the characterisation applied to a concrete row, index
and value. -/
theorem c6_extract_numeric_total_witness :
    extract_numeric [Cell.text "abc", Cell.num 5] (some 1) = some 5 :=
  (c6_extract_numeric_total [Cell.text "abc", Cell.num 5] (some 1)).2 1 5 (Cell.num 5)
    rfl (by decide) rfl

/-- C7 (amended): whenever a row's processing emits a record, the new
state has `EmployeeContext = none`, but `CurrentPeriod` is NOT cleared:
it retains the period the record was built from (rendered `N/A` when
null).  It is reset only by the next header match. -/
theorem c7_emit_clears_employee (cmap : ColumnMap) (s : RState) (row : List Cell)
    (s' : RState) (rec : EmployeeRecord)
    (h : stepRow cmap s row = (s', some rec)) :
    s'.employee = none ∧ rec.period = s'.period.getD "N/A" := by
  simp only [stepRow] at h
  split at h
  next e heq =>
    split at h
    next htot =>
      rw [Prod.mk.injEq] at h
      obtain ⟨h1, h2⟩ := h
      injection h2 with h2
      rw [← h1, ← h2]
      exact ⟨rfl, rfl⟩
    next htot => exact absurd h (by simp)
  next heq => exact absurd h (by simp)

/-- C7 (counterexample): after the totals row of a section that had set
period `2025/12`, the state is `{employee := none, period := some
"2025/12"}` — one record was emitted but `CurrentPeriod` is NOT null,
contradicting the claim that both components are cleared. -/
theorem c7_period_retained_cex :
    runState ⟨some 13, some 16, some 18, some 25⟩ ⟨none, none⟩
        [[Cell.text "Matricule : 7 001 - X"], [Cell.text "2025/12"],
          [Cell.text "TOTAL MATRICULE : 7 001"]]
      = ⟨none, some "2025/12"⟩
    ∧ (runRows ⟨some 13, some 16, some 18, some 25⟩ ⟨none, none⟩
        [[Cell.text "Matricule : 7 001 - X"], [Cell.text "2025/12"],
          [Cell.text "TOTAL MATRICULE : 7 001"]]).length = 1
    ∧ (some "2025/12" : Option String) ≠ none := by
  refine ⟨by decide, by decide, by decide⟩

/-- C7 (witness): the amended theorem at a concrete emitting step. -/
theorem c7_emit_clears_employee_witness :
    ((⟨none, some "2025/12"⟩ : RState).employee = none)
    ∧ ("2025/12" = (some "2025/12" : Option String).getD "N/A") :=
  c7_emit_clears_employee ⟨some 13, some 16, some 18, some 25⟩
    ⟨some ⟨"7 001", "X"⟩, some "2025/12"⟩ [Cell.text "TOTAL MATRICULE : 7 001"]
    ⟨none, some "2025/12"⟩
    ⟨"7 001", "X", "2025/12", none, none, none, none⟩ (by decide)

/-- C2 (amended): for an employee section opened by a header row matching
the pattern, the emitted record's `EmployeeId` is the captured id text
with only LEADING and TRAILING whitespace stripped — internal whitespace
is PRESERVED (`'7 001'` stays `'7 001'`) — and `EmployeeName` is the
captured name trimmed of surrounding whitespace. -/
theorem c2_capture_trim (cmap : ColumnMap) (s : RState)
    (h t : List Cell) (mid : List (List Cell)) (i n : String)
    (hm : matricule_search (rowText h).data = some (i, n))
    (hth : totals_search (rowText h).data = false)
    (hmid : ∀ r ∈ mid, matricule_search (rowText r).data = none
      ∧ totals_search (rowText r).data = false)
    (htm : matricule_search (rowText t).data = none)
    (htt : totals_search (rowText t).data = true) :
    (runRows cmap s (h :: (mid ++ [t]))).map (fun rec => (rec.matricule, rec.employee_name))
      = [(pyStrip i, pyStrip n)] := by
  have hh := stepRow_header cmap s h i n hm hth
  rw [runRows]
  cases hsr : stepRow cmap s h with
  | mk s1 o =>
    rw [hsr] at hh
    obtain ⟨hh1, hh2⟩ := hh
    cases o with
    | some rec => exact absurd hh2 (by simp)
    | none =>
      dsimp only
      rw [runRows_append]
      have hkeep := runRows_keeps_employee cmap s1 mid hmid
      rw [hkeep.1, List.nil_append]
      have hemp2 : (runState cmap s1 mid).employee = some ⟨pyStrip i, pyStrip n⟩ :=
        hkeep.2.trans hh1
      rw [runRows]
      rw [stepRow_totals cmap (runState cmap s1 mid) t ⟨pyStrip i, pyStrip n⟩ hemp2 htm htt]
      simp [runRows]

/-- C2 (counterexample): the section with header text
`Matricule : 7 001 - SADIK Amina` emits `EmployeeId = "7 001"` — the
internal space survives, refuting the claim that internal whitespace is
removed (which would give `"7001"`). -/
theorem c2_internal_space_cex :
    (extract_employee_data
        [[Cell.text "Matricule : 7 001 - SADIK Amina"],
          [Cell.text "TOTAL MATRICULE : 7 001"]]).map
        (fun rec => rec.matricule)
      = ["7 001"]
    ∧ "7 001" ≠ "7001" := by
  refine ⟨by decide, by decide⟩

/-- C2 (witness): the capture theorem at the concrete section. -/
theorem c2_capture_trim_witness :
    (runRows ⟨some 13, some 16, some 18, some 25⟩ ⟨none, none⟩
        [[Cell.text "Matricule : 7 001 - SADIK Amina"],
          [Cell.text "TOTAL MATRICULE : 7 001"]]).map
        (fun rec => (rec.matricule, rec.employee_name))
      = [(pyStrip "7 001", pyStrip "SADIK Amina")] :=
  c2_capture_trim ⟨some 13, some 16, some 18, some 25⟩ ⟨none, none⟩
    [Cell.text "Matricule : 7 001 - SADIK Amina"] [Cell.text "TOTAL MATRICULE : 7 001"]
    [] "7 001" "SADIK Amina" (by decide) (by decide) (by decide) (by decide) (by decide)

/-- C4: an employee section (header row, then rows on which no rule
fires, then its totals row) in which no period-match row occurs emits
exactly one record whose `Period` is the sentinel `"N/A"`. -/
theorem c4_period_na (cmap : ColumnMap) (s : RState)
    (h t : List Cell) (mid : List (List Cell)) (i n : String)
    (hm : matricule_search (rowText h).data = some (i, n))
    (hph : period_search (rowText h).data = none
      ∨ containsLit totalLit (rowText h).data = true)
    (hth : totals_search (rowText h).data = false)
    (hmid : ∀ r ∈ mid, matricule_search (rowText r).data = none
      ∧ (period_search (rowText r).data = none
          ∨ containsLit totalLit (rowText r).data = true)
      ∧ totals_search (rowText r).data = false)
    (htm : matricule_search (rowText t).data = none)
    (htt : totals_search (rowText t).data = true) :
    (runRows cmap s (h :: (mid ++ [t]))).map (fun rec => rec.period) = ["N/A"] := by
  rw [runRows]
  rw [stepRow_header_full cmap s h i n hm hph hth]
  dsimp only
  rw [runRows_append]
  have hmid' := runRows_no_transitions cmap
    ({ employee := some ⟨pyStrip i, pyStrip n⟩, period := none } : RState) mid hmid
  rw [hmid'.1, List.nil_append, hmid'.2]
  rw [runRows]
  rw [stepRow_totals cmap _ t ⟨pyStrip i, pyStrip n⟩ rfl htm htt]
  simp [runRows]

/-- C4 (witness): a header directly followed by its totals row yields
`Period = "N/A"`. -/
theorem c4_period_na_witness :
    (runRows ⟨some 13, some 16, some 18, some 25⟩ ⟨none, none⟩
        [[Cell.text "Matricule : 8 002 - DUPONT Jean"],
          [Cell.text "some label row"],
          [Cell.text "TOTAL MATRICULE : 8 002"]]).map (fun rec => rec.period)
      = ["N/A"] :=
  c4_period_na ⟨some 13, some 16, some 18, some 25⟩ ⟨none, none⟩
    [Cell.text "Matricule : 8 002 - DUPONT Jean"] [Cell.text "TOTAL MATRICULE : 8 002"]
    [[Cell.text "some label row"]] "8 002" "DUPONT Jean"
    (by decide) (by decide) (by decide) (by decide) (by decide) (by decide)

/-- C8: the combined dataset's length is the sum of the per-file record
counts; it distributes over upload-list concatenation (upload order,
in-file emission order preserved); a single file contributes exactly its
tagged records; and every combined row carries the name of an uploaded
file whose extraction contains it. -/
theorem c8_aggregator :
    (∀ files, (combined_df files).length
        = (files.map (fun f => (extract_employee_data f.2).length)).sum)
    ∧ (∀ fs gs, combined_df (fs ++ gs) = combined_df fs ++ combined_df gs)
    ∧ (∀ nm g, combined_df [(nm, g)] = process_file nm g)
    ∧ (∀ files p, p ∈ combined_df files →
        ∃ f ∈ files, p.2 = f.1 ∧ p.1 ∈ extract_employee_data f.2) := by
  refine ⟨?_, ?_, ?_, ?_⟩
  · intro files
    simp [combined_df, all_data, List.length_flatten, List.map_map, Function.comp_def,
      List.length_map]
  · intro fs gs
    simp [combined_df, all_data]
  · intro nm g
    simp [combined_df, all_data, process_file]
  · intro files p hp
    simp only [combined_df, all_data, List.mem_flatten, List.mem_map] at hp
    obtain ⟨l, ⟨f, hf, hl⟩, hpl⟩ := hp
    rw [← hl] at hpl
    obtain ⟨r, hr, hrp⟩ := List.mem_map.mp hpl
    exact ⟨f, hf, by rw [← hrp], by rw [← hrp]; exact hr⟩

/-- C8 (witness): the membership clause at a concrete two-file upload. -/
theorem c8_aggregator_witness :
    ∃ f ∈ [("a.xls", ([[Cell.text "Matricule : 7 001 - SADIK Amina"],
          [Cell.text "TOTAL MATRICULE : 7 001"]] : List (List Cell))),
        ("b.xls", ([] : List (List Cell)))],
      ("a.xls" : String) = f.1
      ∧ (⟨"7 001", "SADIK Amina", "N/A", none, none, none, none⟩ : EmployeeRecord)
          ∈ extract_employee_data f.2 :=
  c8_aggregator.2.2.2
    [("a.xls", [[Cell.text "Matricule : 7 001 - SADIK Amina"],
        [Cell.text "TOTAL MATRICULE : 7 001"]]),
      ("b.xls", [])]
    (⟨"7 001", "SADIK Amina", "N/A", none, none, none, none⟩, "a.xls")
    (by decide)

/-! ## Digit-count lemmas: both matricule patterns require two digits -/

/-- Counting digits in a maximal digit run counts its whole length. -/
theorem countP_takeWhile_digit (l : List Char) :
    (l.takeWhile Char.isDigit).countP Char.isDigit = (l.takeWhile Char.isDigit).length :=
  List.countP_eq_length.mpr (fun _ ha => List.mem_takeWhile_imp ha)

/-- Splitting a digit count at a `takeWhile`/`dropWhile` boundary. -/
theorem countP_digit_split (p : Char → Bool) (l : List Char) :
    l.countP Char.isDigit
      = (l.takeWhile p).countP Char.isDigit + (l.dropWhile p).countP Char.isDigit := by
  conv_lhs => rw [← List.takeWhile_append_dropWhile p l]
  rw [List.countP_append]

/-- Dropping a prefix cannot increase the digit count. -/
theorem countP_digit_dropWhile_le (p : Char → Bool) (l : List Char) :
    (l.dropWhile p).countP Char.isDigit ≤ l.countP Char.isDigit :=
  (List.dropWhile_sublist p).countP_le _

/-- Taking a prefix cannot increase the digit count. -/
theorem countP_digit_takeWhile_le (p : Char → Bool) (l : List Char) :
    (l.takeWhile p).countP Char.isDigit ≤ l.countP Char.isDigit :=
  (List.takeWhile_sublist p).countP_le _

/-- The digit count of a tail is at most that of the list. -/
theorem countP_digit_cons_le (c : Char) (l : List Char) :
    l.countP Char.isDigit ≤ (c :: l).countP Char.isDigit := by
  rw [List.countP_cons]; omega

/-- A nonempty digit run contributes at least one digit. -/
theorem countP_digit_run_pos (l : List Char) (hne : l.takeWhile Char.isDigit ≠ []) :
    1 ≤ (l.takeWhile Char.isDigit).countP Char.isDigit := by
  rw [countP_takeWhile_digit]
  exact List.length_pos.mpr hne

/-- A successful continuation match of the employee-header pattern needs
at least two digit characters (the group is `\d+\s*\d+`). -/
theorem matchAfterMatricule_two_digits (cs : List Char) (r : String × String)
    (h : matchAfterMatricule cs = some r) : 2 ≤ cs.countP Char.isDigit := by
  have hdrop : (cs.dropWhile pyIsSpace).countP Char.isDigit ≤ cs.countP Char.isDigit :=
    countP_digit_dropWhile_le _ _
  simp only [matchAfterMatricule] at h
  split at h
  next t2 heq =>
    rw [heq] at hdrop
    have ht2 : t2.countP Char.isDigit ≤ cs.countP Char.isDigit :=
      le_trans (countP_digit_cons_le ':' t2) hdrop
    have ht3 : (t2.dropWhile pyIsSpace).countP Char.isDigit ≤ t2.countP Char.isDigit :=
      countP_digit_dropWhile_le _ _
    have hsplit := countP_digit_split Char.isDigit (t2.dropWhile pyIsSpace)
    split at h
    next hd1 => exact absurd h (by simp)
    next hd1 =>
      have hd1ne : (t2.dropWhile pyIsSpace).takeWhile Char.isDigit ≠ [] := by
        simpa [List.isEmpty_iff] using hd1
      have hd1pos := countP_digit_run_pos _ hd1ne
      split at h
      next r' heqW =>
        split at heqW
        next hd2 => exact absurd heqW (by simp)
        next hd2 =>
          have hd2ne :
              (((t2.dropWhile pyIsSpace).dropWhile Char.isDigit).dropWhile
                  pyIsSpace).takeWhile Char.isDigit ≠ [] := by
            simpa [List.isEmpty_iff] using hd2
          have hd2pos := countP_digit_run_pos _ hd2ne
          have h5 : List.countP Char.isDigit
                ((((t2.dropWhile pyIsSpace).dropWhile Char.isDigit).dropWhile
                  pyIsSpace).takeWhile Char.isDigit)
              ≤ List.countP Char.isDigit ((t2.dropWhile pyIsSpace).dropWhile Char.isDigit) :=
            le_trans (countP_digit_takeWhile_le _ _) (countP_digit_dropWhile_le _ _)
          omega
      next heqW =>
        split at h
        next h2le =>
          have hlen := countP_takeWhile_digit (t2.dropWhile pyIsSpace)
          omega
        next h2le => exact absurd h (by simp)
  next heq => exact absurd h (by simp)

/-- A successful employee-header search needs at least two digits in the
row text. -/
theorem matricule_search_two_digits :
    ∀ cs r, matricule_search cs = some r → 2 ≤ cs.countP Char.isDigit := by
  intro cs
  induction cs with
  | nil => intro r h; simp [matricule_search] at h
  | cons c cs ih =>
    intro r h
    rw [matricule_search] at h
    split at h
    next hpre =>
      split at h
      next r' heq =>
        have h2 := matchAfterMatricule_two_digits _ r' heq
        have hle : ((c :: cs).drop matriculeLit.length).countP Char.isDigit
            ≤ (c :: cs).countP Char.isDigit :=
          (List.drop_sublist _ _).countP_le _
        omega
      next heq =>
        have h2 := ih r h
        have hle := countP_digit_cons_le c cs
        omega
    next hpre =>
      have h2 := ih r h
      have hle := countP_digit_cons_le c cs
      omega

/-- A successful continuation match of the totals pattern needs at least
two digit characters. -/
theorem matchAfterTotals_two_digits (cs : List Char)
    (h : matchAfterTotals cs = true) : 2 ≤ cs.countP Char.isDigit := by
  have hdrop : (cs.dropWhile pyIsSpace).countP Char.isDigit ≤ cs.countP Char.isDigit :=
    countP_digit_dropWhile_le _ _
  simp only [matchAfterTotals] at h
  split at h
  next t2 heq =>
    rw [heq] at hdrop
    have ht2 : t2.countP Char.isDigit ≤ cs.countP Char.isDigit :=
      le_trans (countP_digit_cons_le ':' t2) hdrop
    have ht3 : (t2.dropWhile pyIsSpace).countP Char.isDigit ≤ t2.countP Char.isDigit :=
      countP_digit_dropWhile_le _ _
    have hsplit := countP_digit_split Char.isDigit (t2.dropWhile pyIsSpace)
    split at h
    next hd1 => exact absurd h (by simp)
    next hd1 =>
      have hd1ne : (t2.dropWhile pyIsSpace).takeWhile Char.isDigit ≠ [] := by
        simpa [List.isEmpty_iff] using hd1
      have hd1pos := countP_digit_run_pos _ hd1ne
      split at h
      next h2le =>
        have hlen := countP_takeWhile_digit (t2.dropWhile pyIsSpace)
        omega
      next h2le =>
        split at h
        next c' rest heq5 =>
          have h5 : (c' :: rest).countP Char.isDigit
              ≤ ((t2.dropWhile pyIsSpace).dropWhile Char.isDigit).countP Char.isDigit := by
            rw [← heq5]
            exact countP_digit_dropWhile_le _ _
          simp [List.countP_cons, h] at h5
          omega
        next heq5 => exact absurd h (by simp)
  next heq => exact absurd h (by simp)

/-- A successful totals search needs at least two digits in the row
text. -/
theorem totals_search_two_digits :
    ∀ cs, totals_search cs = true → 2 ≤ cs.countP Char.isDigit := by
  intro cs
  induction cs with
  | nil => intro h; simp [totals_search] at h
  | cons c cs ih =>
    intro h
    rw [totals_search] at h
    simp only [Bool.or_eq_true, Bool.and_eq_true] at h
    rcases h with ⟨_, hmt⟩ | h1
    · have h2 := matchAfterTotals_two_digits _ hmt
      have hle : ((c :: cs).drop totalMatriculeLit.length).countP Char.isDigit
          ≤ (c :: cs).countP Char.isDigit :=
        (List.drop_sublist _ _).countP_le _
      omega
    · have h2 := ih h1
      have hle := countP_digit_cons_le c cs
      omega

/-- A successful period search needs at least two digits in the row
text (the pattern has six). -/
theorem period_search_two_digits :
    ∀ cs p, period_search cs = some p → 2 ≤ cs.countP Char.isDigit := by
  intro cs
  induction cs with
  | nil => intro p h; simp [period_search] at h
  | cons a rest ih =>
    intro p h
    rcases rest with _ | ⟨b, _ | ⟨c2, _ | ⟨d2, _ | ⟨s2, _ | ⟨e2, _ | ⟨f2, tail⟩⟩⟩⟩⟩⟩
    · simp [period_search] at h
    · simp [period_search] at h
    · simp [period_search] at h
    · simp [period_search] at h
    · simp [period_search] at h
    · simp [period_search] at h
    · rw [period_search] at h
      by_cases hcond : (a.isDigit && b.isDigit && c2.isDigit && d2.isDigit
          && (s2 == '/') && e2.isDigit && f2.isDigit) = true
      · simp only [Bool.and_eq_true] at hcond
        obtain ⟨⟨⟨⟨⟨⟨ha, hb⟩, _⟩, _⟩, _⟩, _⟩, _⟩ := hcond
        simp [List.countP_cons, ha, hb]
      · rw [if_neg hcond] at h
        have h2 := ih p h
        have hle := countP_digit_cons_le a (b :: c2 :: d2 :: s2 :: e2 :: f2 :: tail)
        omega

/-- C10: both matricule regular expressions require at least two digits
in the id (`\d+\s*\d+`).  For a header row whose id is one single digit
and a totals row with that single-digit id, neither transition fires —
the row texts contain only one digit character — and a grid made of such
a section emits no record at all. -/
theorem c10_single_digit_id (d : Char) (nm : List Char)
    (hd : d.isDigit = true)
    (hnm : ∀ c ∈ nm, c.isDigit = false) :
    matricule_search ("Matricule : ".data ++ d :: (" - ".data ++ nm)) = none
    ∧ totals_search ("TOTAL MATRICULE : ".data ++ [d]) = false
    ∧ ∀ cmap s, runRows cmap s
        [[Cell.text ⟨"Matricule : ".data ++ d :: (" - ".data ++ nm)⟩],
          [Cell.text ⟨"TOTAL MATRICULE : ".data ++ [d]⟩]] = [] := by
  have hnm0 : nm.countP Char.isDigit = 0 :=
    List.countP_eq_zero.mpr (fun c hc => by simp [hnm c hc])
  have hc1 : ("Matricule : ".data ++ d :: (" - ".data ++ nm)).countP Char.isDigit = 1 := by
    have e0 : ("Matricule : ".data).countP Char.isDigit = 0 := by decide
    have e1 : (" - ".data).countP Char.isDigit = 0 := by decide
    rw [List.countP_append, e0, List.countP_cons, List.countP_append, e1, hnm0, hd]
    simp
  have hc2 : ("TOTAL MATRICULE : ".data ++ [d]).countP Char.isDigit = 1 := by
    have e0 : ("TOTAL MATRICULE : ".data).countP Char.isDigit = 0 := by decide
    rw [List.countP_append, e0, List.countP_cons, hd]
    simp
  have noM : ∀ l : List Char, l.countP Char.isDigit ≤ 1 → matricule_search l = none := by
    intro l hl
    cases hms : matricule_search l with
    | none => rfl
    | some r => have := matricule_search_two_digits l r hms; omega
  have noT : ∀ l : List Char, l.countP Char.isDigit ≤ 1 → totals_search l = false := by
    intro l hl
    cases hts : totals_search l with
    | false => rfl
    | true => have := totals_search_two_digits l hts; omega
  have noP : ∀ l : List Char, l.countP Char.isDigit ≤ 1 → period_search l = none := by
    intro l hl
    cases hps : period_search l with
    | none => rfl
    | some q => have := period_search_two_digits l q hps; omega
  refine ⟨noM _ (by omega), noT _ (by omega), ?_⟩
  intro cmap s
  have hrt1 : (rowText [Cell.text ⟨"Matricule : ".data ++ d :: (" - ".data ++ nm)⟩]).data
      = "Matricule : ".data ++ d :: (" - ".data ++ nm) := rfl
  have hrt2 : (rowText [Cell.text ⟨"TOTAL MATRICULE : ".data ++ [d]⟩]).data
      = "TOTAL MATRICULE : ".data ++ [d] := rfl
  refine (runRows_no_transitions cmap s _ ?_).1
  intro r hr
  rcases List.mem_cons.mp hr with rfl | hr2
  · rw [hrt1]
    exact ⟨noM _ (by omega), Or.inl (noP _ (by omega)), noT _ (by omega)⟩
  · rcases List.mem_singleton.mp hr2 with rfl
    rw [hrt2]
    exact ⟨noM _ (by omega), Or.inl (noP _ (by omega)), noT _ (by omega)⟩

/-- C10 (witness): the single-digit id `7` with a digit-free name. -/
theorem c10_single_digit_id_witness :
    runRows ⟨some 13, some 16, some 18, some 25⟩ ⟨none, none⟩
      [[Cell.text "Matricule : 7 - NAME"], [Cell.text "TOTAL MATRICULE : 7"]] = [] :=
  (c10_single_digit_id '7' "NAME".data (by decide) (by decide)).2.2
    ⟨some 13, some 16, some 18, some 25⟩ ⟨none, none⟩
